import Mathlib

/-!
Verification of the `DataLayer` core of the lightweight-charts repository.

The repository ships only the unit-test file
`src/tests/unittests/data-layer.spec.ts` for this component (the
implementation `src/api/data-layer.ts` is not part of the sources), so the
definitions below are modelled from the specification, refined wherever the
unit tests pin down the observable behaviour (the tests are the only
executable code of the component in the sources and are treated as the
authority where they speak).
-/

namespace DataLayerModel

/-- A calendar date triple, as in `src/model/time-data.ts`'s `BusinessDay`. -/
structure BusinessDay where
  year : Int
  month : Int
  day : Int
deriving DecidableEq, Repr

/-- Modelled from the spec: the canonical temporal key `TimePoint`
`\x7b timestamp, businessDay? \x7d` (§3 DATA MODEL). -/
structure TimePoint where
  timestamp : Int
  businessDay : Option BusinessDay
deriving DecidableEq, Repr

/-- A caller-supplied time value: a UTC timestamp or a business-day triple
(the tagged union `Time` at the API boundary). -/
inductive TimeValue where
  | utc (t : Int)
  | business (bd : BusinessDay)
deriving DecidableEq, Repr

instance {ε α : Type} [DecidableEq ε] [DecidableEq α] : DecidableEq (Except ε α) := fun x y =>
  match x, y with
  | .ok a, .ok b =>
    if h : a = b then .isTrue (by rw [h]) else .isFalse (by intro hc; cases hc; exact h rfl)
  | .error a, .error b =>
    if h : a = b then .isTrue (by rw [h]) else .isFalse (by intro hc; cases hc; exact h rfl)
  | .ok _, .error _ => .isFalse (by intro hc; cases hc)
  | .error _, .ok _ => .isFalse (by intro hc; cases hc)

/-- Count of days from the civil epoch 1970-01-01 to year/month/day in the
proleptic Gregorian calendar (era/year-of-era decomposition; all divisions
here act on non-negative operands for the in-range dates the library uses). -/
def daysFromCivil (y m d : Int) : Int :=
  let yAdj := if m ≤ 2 then y - 1 else y
  let era := yAdj / 400
  let yoe := yAdj - era * 400
  let mp := (m + 9) % 12
  let doy := (153 * mp + 2) / 5 + d - 1
  let doe := yoe * 365 + yoe / 4 - yoe / 100 + doy
  era * 146097 + doe - 719468

/-- Modelled from the spec: `convertTime` of a business day computes the UTC
midnight timestamp for that calendar date via proleptic Gregorian calendar
arithmetic and keeps the triple (§4.1). -/
def bdToTimePoint (bd : BusinessDay) : TimePoint :=
  ⟨86400 * daysFromCivil bd.year bd.month bd.day, some bd⟩

/-- Modelled from the spec: `convertTime(input) → TimePoint` (§4.1); the
implementation file `src/api/data-layer.ts` is absent from the sources. -/
def convertTime : TimeValue → TimePoint
  | .utc t => ⟨t, none⟩
  | .business bd => bdToTimePoint bd

/-- The error raised by the business-day string parser. -/
inductive ParseError where
  | invalidDate
deriving DecidableEq, Repr

/-- Numeric value of a decimal digit character. -/
def digitVal (c : Char) : Int := Int.ofNat (c.toNat - 48)

/-- Leap-year test of the proleptic Gregorian calendar. -/
def isLeap (y : Int) : Bool :=
  y % 4 = 0 && (y % 100 ≠ 0 || y % 400 = 0)

/-- Number of days in a month of the proleptic Gregorian calendar. -/
def daysInMonth (y m : Int) : Int :=
  if m = 2 then (if isLeap y then 29 else 28)
  else if m = 4 ∨ m = 6 ∨ m = 9 ∨ m = 11 then 30
  else 31

/-- The strict `YYYY-MM-DD` shape check (the regex step of the parser). -/
def matchesDateShape (s : String) : Bool :=
  match s.data with
  | [a, b, c, d, e, f, g, h, i, j] =>
    a.isDigit && b.isDigit && c.isDigit && d.isDigit && e == '-' &&
    f.isDigit && g.isDigit && h == '-' && i.isDigit && j.isDigit
  | _ => false

/-- Modelled from the spec: `stringToBusinessDay` (§4.1); the implementation
file is absent from the sources.  The parser first enforces the strict
`YYYY-MM-DD` shape, then the calendar validity of the numeric fields, because
the unit test (`data-layer.spec.ts` line 360) requires the shape-valid string
"2019-15-01" to throw at parse time (the date-object validity check that
follows the regex in the pipeline). -/
def stringToBusinessDay (s : String) : Except ParseError BusinessDay :=
  if matchesDateShape s then
    match s.data with
    | [a, b, c, d, _, f, g, _, i, j] =>
      let y := 1000 * digitVal a + 100 * digitVal b + 10 * digitVal c + digitVal d
      let m := 10 * digitVal f + digitVal g
      let dd := 10 * digitVal i + digitVal j
      if 1 ≤ m ∧ m ≤ 12 ∧ 1 ≤ dd ∧ dd ≤ daysInMonth y m then .ok ⟨y, m, dd⟩
      else .error .invalidDate
    | _ => .error .invalidDate
  else .error .invalidDate

/-- The time kind of a stored point: `true` means business-day. -/
def tpKind (t : TimePoint) : Bool := t.businessDay.isSome

/-- The time kind of a caller-supplied time value: `true` means business-day. -/
def tvKind : TimeValue → Bool
  | .utc _ => false
  | .business _ => true

/-- An `\x7b index, time \x7d` row, as produced in update packets and marks. -/
structure Bar where
  index : Nat
  time : TimePoint
deriving DecidableEq, Repr

/-- Modelled from the spec: `SeriesUpdatePacket` (§3). -/
structure SeriesUpdatePacket where
  update : List Bar
deriving DecidableEq, Repr

/-- Modelled from the spec: `TimeScaleUpdate` (§3); series are identified by
opaque handles, embedded here as natural-number ids. -/
structure TimeScaleUpdate where
  index : Nat
  changes : List TimePoint
  marks : List Bar
  seriesUpdates : List (Nat × SeriesUpdatePacket)
deriving DecidableEq, Repr

/-- Modelled from the spec: the `DataLayer` state — the registry of series
(each with its ordered canonical point list) and the shared time scale (§3,
§4.3); the implementation file `src/api/data-layer.ts` is absent from the
sources. -/
structure DataLayer where
  series : List (Nat × List TimePoint)
  scale : List TimePoint
deriving DecidableEq, Repr

/-- A fresh `DataLayer` with no registered series and an empty scale. -/
def emptyDataLayer : DataLayer := ⟨[], []⟩

/-- Sorted insertion of a point into an ascending list; a point with an equal
timestamp is replaced (last write wins, per §4.3's de-duplication rule). -/
def insertPoint (t : TimePoint) : List TimePoint → List TimePoint
  | [] => [t]
  | q :: qs =>
    if t.timestamp < q.timestamp then t :: q :: qs
    else if t.timestamp = q.timestamp then t :: qs
    else q :: insertPoint t qs

/-- Sort a point list ascending by timestamp, de-duplicating with last write
wins. -/
def sortPoints (ps : List TimePoint) : List TimePoint :=
  ps.foldl (fun acc t => insertPoint t acc) []

/-- Concatenation of all registered series' point lists. -/
def allPoints (series : List (Nat × List TimePoint)) : List TimePoint :=
  series.foldr (fun s acc => s.2 ++ acc) []

/-- Rebuild the shared scale as the sorted, de-duplicated union of all
registered series' points (the full-rebuild path used by `setSeriesData` and
`removeSeries`, per the unit tests). -/
def rebuildScale (series : List (Nat × List TimePoint)) : List TimePoint :=
  sortPoints (allPoints series)

/-- Index of a timestamp in an ascending scale: the number of leading scale
entries whose timestamp is smaller. -/
def scaleIndex (scale : List TimePoint) (ts : Int) : Nat :=
  (scale.takeWhile (fun q => decide (q.timestamp < ts))).length

/-- The bar rows of one series' point list against a given scale. -/
def seriesBars (scale : List TimePoint) (pts : List TimePoint) : List Bar :=
  pts.map (fun t => ⟨scaleIndex scale t.timestamp, t⟩)

/-- Enumerate scale entries as `\x7b index, time \x7d` rows starting at a
given index. -/
def enumFrom (i : Nat) : List TimePoint → List Bar
  | [] => []
  | t :: ts => ⟨i, t⟩ :: enumFrom (i + 1) ts

/-- Full per-series packets after a scale rebuild: every registered series
with data reports every one of its bars (per the unit tests for
`setSeriesData` and `removeSeries`). -/
def fullPackets (series : List (Nat × List TimePoint)) (scale : List TimePoint) :
    List (Nat × SeriesUpdatePacket) :=
  series.filterMap (fun s =>
    if s.2.isEmpty then none else some (s.1, ⟨seriesBars scale s.2⟩))

/-- Replace a series' registry entry, or append it if absent. -/
def setEntry (series : List (Nat × List TimePoint)) (sid : Nat) (pts : List TimePoint) :
    List (Nat × List TimePoint) :=
  if series.any (fun s => s.1 == sid) then
    series.map (fun s => if s.1 == sid then (sid, pts) else s)
  else series ++ [(sid, pts)]

/-- The registered point list of a series (empty if unregistered). -/
def seriesPoints (l : DataLayer) (sid : Nat) : List TimePoint :=
  match l.series.find? (fun s => s.1 == sid) with
  | some s => s.2
  | none => []

/-- The established time kind of a layer: the kind of the first point of the
first series that has data. -/
def establishedKind (series : List (Nat × List TimePoint)) : Option Bool :=
  series.findSome? (fun s => s.2.head?.map tpKind)

/-- All points of one call share one time kind (checked against the first
point, as the converter selection does). -/
def sameKindList : List TimeValue → Bool
  | [] => true
  | v :: rest => rest.all (fun w => tvKind w == tvKind v)

/-- Validation of a `setSeriesData` call: one kind within the call, and that
kind agrees with the kind established by the other registered series. -/
def setKindOk (l : DataLayer) (sid : Nat) (data : List TimeValue) : Bool :=
  sameKindList data &&
  (match data.head?, establishedKind (l.series.filter (fun s => s.1 != sid)) with
   | some v, some k0 => tvKind v == k0
   | _, _ => true)

/-- Validation of an `updateSeriesData` call: the point's kind agrees with
the kind established across all registered series. -/
def updKindOk (l : DataLayer) (v : TimeValue) : Bool :=
  match establishedKind l.series with
  | some k0 => tvKind v == k0
  | none => true

/-- Errors raised by the mutating operations (§7). -/
inductive DataLayerError where
  | timeTypeMismatch
deriving DecidableEq, Repr

/-- The result of a full scale rebuild: `index = 0`, the whole new scale as
`changes`, full `marks`, and a full packet for every series with data. -/
def rebuildResult (series2 : List (Nat × List TimePoint)) : TimeScaleUpdate × DataLayer :=
  (⟨0, rebuildScale series2, enumFrom 0 (rebuildScale series2),
    fullPackets series2 (rebuildScale series2)⟩, ⟨series2, rebuildScale series2⟩)

/-- Modelled from the spec: `setSeriesData` (§4.3); the implementation file
is absent from the sources.  Validation is fail-fast (§7); the shared scale
is fully rebuilt — the behaviour the unit tests require
(`data-layer.spec.ts` lines 54–86). -/
def setSeriesData (l : DataLayer) (sid : Nat) (data : List TimeValue) :
    Except DataLayerError (TimeScaleUpdate × DataLayer) :=
  if setKindOk l sid data then
    .ok (rebuildResult (setEntry l.series sid (sortPoints (data.map convertTime))))
  else .error .timeTypeMismatch

/-- Modelled from the spec: `removeSeries` (§4.3); the implementation file is
absent from the sources.  The series is dropped from the registry and the
scale is rebuilt from the remaining series, as the unit test requires
(`data-layer.spec.ts` lines 96–133: the removed series' exclusive points
disappear and remaining indices shift down). -/
def removeSeries (l : DataLayer) (sid : Nat) : TimeScaleUpdate × DataLayer :=
  rebuildResult (l.series.filter (fun s => s.1 != sid))

/-- Modelled from the spec: `updateSeriesData` (§4.3); the implementation
file is absent from the sources.  If the point's timestamp is already in the
scale the call is a bar replace/update at its existing index (`changes` and
`marks` empty); otherwise the point is inserted at its ascending position and
every series reports its bars at or after the insertion point — the
behaviour the unit tests require (`data-layer.spec.ts` lines 136–293; note
the tests accept a point older than the series' last point, line 252). -/
def insertTail (scale : List TimePoint) (t : TimePoint) : List TimePoint :=
  t :: scale.dropWhile (fun q => decide (q.timestamp < t.timestamp))

/-- The scale after inserting a point at its ascending position. -/
def insertScale (scale : List TimePoint) (t : TimePoint) : List TimePoint :=
  scale.takeWhile (fun q => decide (q.timestamp < t.timestamp)) ++ insertTail scale t

/-- One series' packet after an insertion at position `p`: its bars at or
after the insertion point (none reported when it has no such bar). -/
def shiftedPacket (scale2 : List TimePoint) (p : Nat) (pts : List TimePoint) :
    Option SeriesUpdatePacket :=
  if ((seriesBars scale2 pts).filter (fun b => decide (p ≤ b.index))).isEmpty then none
  else some ⟨(seriesBars scale2 pts).filter (fun b => decide (p ≤ b.index))⟩

/-- The packets of every series affected by an insertion at position `p`. -/
def shiftedPackets (series2 : List (Nat × List TimePoint)) (scale2 : List TimePoint)
    (p : Nat) : List (Nat × SeriesUpdatePacket) :=
  series2.filterMap (fun s => (shiftedPacket scale2 p s.2).map (fun pk => (s.1, pk)))

def updateSeriesData (l : DataLayer) (sid : Nat) (v : TimeValue) :
    Except DataLayerError (TimeScaleUpdate × DataLayer) :=
  if updKindOk l v then
    if l.scale.any (fun q => q.timestamp == (convertTime v).timestamp) then
      .ok (⟨scaleIndex l.scale (convertTime v).timestamp, [], [],
        [(sid, ⟨[⟨scaleIndex l.scale (convertTime v).timestamp, convertTime v⟩]⟩)]⟩,
        ⟨setEntry l.series sid (insertPoint (convertTime v) (seriesPoints l sid)), l.scale⟩)
    else
      .ok (⟨scaleIndex l.scale (convertTime v).timestamp,
        insertTail l.scale (convertTime v),
        enumFrom (scaleIndex l.scale (convertTime v).timestamp) (insertTail l.scale (convertTime v)),
        shiftedPackets (setEntry l.series sid (insertPoint (convertTime v) (seriesPoints l sid)))
          (insertScale l.scale (convertTime v)) (scaleIndex l.scale (convertTime v).timestamp)⟩,
        ⟨setEntry l.series sid (insertPoint (convertTime v) (seriesPoints l sid)),
          insertScale l.scale (convertTime v)⟩)
  else .error .timeTypeMismatch

/-- The update part of a successful result (a default empty update on
error). -/
def okUpdate (r : Except DataLayerError (TimeScaleUpdate × DataLayer)) : TimeScaleUpdate :=
  match r with
  | .ok x => x.1
  | .error _ => ⟨0, [], [], []⟩

/-- The successor state of a successful result (an empty layer on error). -/
def okLayer (r : Except DataLayerError (TimeScaleUpdate × DataLayer)) : DataLayer :=
  match r with
  | .ok x => x.2
  | .error _ => ⟨[], []⟩

/-- Look up one series' packet in a result's `seriesUpdates`. -/
def findPacket (us : List (Nat × SeriesUpdatePacket)) (sid : Nat) :
    Option SeriesUpdatePacket :=
  (us.find? (fun s => s.1 == sid)).map (fun s => s.2)

/-- Strict ascending order by timestamp. -/
def Asc (ps : List TimePoint) : Prop :=
  ps.Pairwise (fun a b => a.timestamp < b.timestamp)

/-- Well-formedness of a layer state: ascending scale, ascending series, all
series timestamps present in the scale, and one time kind across all
registered series (§3's invariants). -/
def WF (l : DataLayer) : Prop :=
  Asc l.scale ∧
  (∀ s ∈ l.series, Asc s.2) ∧
  (∀ s ∈ l.series, ∀ u ∈ s.2, u.timestamp ∈ l.scale.map TimePoint.timestamp) ∧
  (∀ s ∈ l.series, ∀ a ∈ s.2, ∀ u ∈ l.series, ∀ b ∈ u.2, tpKind a = tpKind b)

instance : DecidablePred Asc := fun ps => by
  unfold Asc; infer_instance

instance (l : DataLayer) : Decidable (WF l) := by
  unfold WF; infer_instance

/-- Shorthand for a plain-timestamp point. -/
def tp (x : Int) : TimePoint := ⟨x, none⟩

/-- The layer of the `removeSeries` unit test: three two-point series
(`data-layer.spec.ts` lines 96–99). -/
def remLayer : DataLayer :=
  ⟨[(1, [tp 2000, tp 5000]), (2, [tp 3000, tp 7000]), (3, [tp 4000, tp 6000])],
    [tp 2000, tp 3000, tp 4000, tp 5000, tp 6000, tp 7000]⟩

/-- The layer of the `add new point in the middle` unit test
(`data-layer.spec.ts` lines 221–222). -/
def midLayer : DataLayer :=
  ⟨[(1, [tp 5000, tp 6000]), (2, [tp 2000, tp 3000])],
    [tp 2000, tp 3000, tp 5000, tp 6000]⟩

/-- The layer of the `change last existing point` unit test
(`data-layer.spec.ts` lines 184–185). -/
def lastLayer : DataLayer :=
  ⟨[(1, [tp 1000, tp 4000]), (2, [tp 2000, tp 4000])],
    [tp 1000, tp 2000, tp 4000]⟩

/-- The layer holding one two-point series, as built by the first
`setSeriesData` call of the `append new series` unit test
(`data-layer.spec.ts` line 34). -/
def oneSeriesLayer : DataLayer :=
  ⟨[(1, [tp 1000, tp 3000])], [tp 1000, tp 3000]⟩

/-- The one-series layer used to refute C2's account of `setSeriesData`. -/
def c2Layer : DataLayer := oneSeriesLayer

/-- The layer holding one business-day series, as built by the
`all points should have same time type on updating` unit test
(`data-layer.spec.ts` lines 344–349). -/
def bdLayer : DataLayer :=
  ⟨[(1, [⟨1569888000, some ⟨2019, 10, 1⟩⟩])], [⟨1569888000, some ⟨2019, 10, 1⟩⟩]⟩

/-- Two points of one call's list carry different time kinds (the within-call
conflict of §7's `TimeTypeMismatchError`, stated from the spec's words). -/
def MixedKinds (data : List TimeValue) : Prop :=
  ∃ v ∈ data, ∃ w ∈ data, tvKind v ≠ tvKind w

/-- A point of the call conflicts with the time kind of some other registered
series (the cross-series conflict of §7, stated from the spec's words). -/
def ConflictsWithOthers (l : DataLayer) (sid : Nat) (data : List TimeValue) : Prop :=
  ∃ v ∈ data, ∃ s ∈ l.series, s.1 ≠ sid ∧ ∃ u ∈ s.2, tvKind v ≠ tpKind u

/-- The point conflicts with the time kind of some registered series. -/
def ConflictsWithLayer (l : DataLayer) (v : TimeValue) : Prop :=
  ∃ s ∈ l.series, ∃ u ∈ s.2, tvKind v ≠ tpKind u

theorem asc_cons_iff {q : TimePoint} {qs : List TimePoint} :
    Asc (q :: qs) ↔ (∀ u ∈ qs, q.timestamp < u.timestamp) ∧ Asc qs := by
  unfold Asc; exact List.pairwise_cons

theorem mem_insertPoint {x t : TimePoint} {l : List TimePoint} :
    x ∈ insertPoint t l → x = t ∨ x ∈ l := by
  induction l with
  | nil => intro h; simp [insertPoint] at h; exact Or.inl h
  | cons q qs ih =>
    intro h
    by_cases h1 : t.timestamp < q.timestamp
    · rw [insertPoint, if_pos h1] at h
      rcases List.mem_cons.mp h with rfl | h
      · exact Or.inl rfl
      · exact Or.inr h
    · by_cases h2 : t.timestamp = q.timestamp
      · rw [insertPoint, if_neg h1, if_pos h2] at h
        rcases List.mem_cons.mp h with rfl | h
        · exact Or.inl rfl
        · exact Or.inr (List.mem_cons_of_mem q h)
      · rw [insertPoint, if_neg h1, if_neg h2] at h
        rcases List.mem_cons.mp h with rfl | h
        · exact Or.inr (List.mem_cons_self x qs)
        · rcases ih h with h | h
          · exact Or.inl h
          · exact Or.inr (List.mem_cons_of_mem q h)

theorem self_mem_insertPoint (t : TimePoint) (l : List TimePoint) :
    t ∈ insertPoint t l := by
  induction l with
  | nil => simp [insertPoint]
  | cons q qs ih =>
    by_cases h1 : t.timestamp < q.timestamp
    · rw [insertPoint, if_pos h1]; exact List.mem_cons_self _ _
    · by_cases h2 : t.timestamp = q.timestamp
      · rw [insertPoint, if_neg h1, if_pos h2]; exact List.mem_cons_self _ _
      · rw [insertPoint, if_neg h1, if_neg h2]; exact List.mem_cons_of_mem q ih

theorem ts_mem_insertPoint {b : Int} {t : TimePoint} {l : List TimePoint} :
    (∃ x ∈ insertPoint t l, x.timestamp = b) ↔
      b = t.timestamp ∨ ∃ x ∈ l, x.timestamp = b := by
  constructor
  · rintro ⟨x, hx, rfl⟩
    rcases mem_insertPoint hx with rfl | hx
    · exact Or.inl rfl
    · exact Or.inr ⟨x, hx, rfl⟩
  · rintro (rfl | ⟨x, hx, rfl⟩)
    · exact ⟨t, self_mem_insertPoint t l, rfl⟩
    · induction l with
      | nil => cases hx
      | cons q qs ih =>
        by_cases h1 : t.timestamp < q.timestamp
        · exact ⟨x, by rw [insertPoint, if_pos h1]; exact List.mem_cons_of_mem t hx, rfl⟩
        · by_cases h2 : t.timestamp = q.timestamp
          · rw [insertPoint, if_neg h1, if_pos h2]
            rcases List.mem_cons.mp hx with rfl | hx
            · exact ⟨t, List.mem_cons_self _ _, h2⟩
            · exact ⟨x, List.mem_cons_of_mem t hx, rfl⟩
          · rw [insertPoint, if_neg h1, if_neg h2]
            rcases List.mem_cons.mp hx with rfl | hx
            · exact ⟨x, List.mem_cons_self _ _, rfl⟩
            · rcases ih hx with ⟨y, hy, hyts⟩
              exact ⟨y, List.mem_cons_of_mem q hy, hyts⟩

theorem asc_insertPoint {t : TimePoint} {l : List TimePoint} (h : Asc l) :
    Asc (insertPoint t l) := by
  induction l with
  | nil => simp [insertPoint, Asc]
  | cons q qs ih =>
    rcases asc_cons_iff.mp h with ⟨hq, hqs⟩
    by_cases h1 : t.timestamp < q.timestamp
    · rw [insertPoint, if_pos h1]
      refine asc_cons_iff.mpr ⟨?_, h⟩
      intro u hu
      rcases List.mem_cons.mp hu with rfl | hu
      · exact h1
      · exact lt_trans h1 (hq u hu)
    · by_cases h2 : t.timestamp = q.timestamp
      · rw [insertPoint, if_neg h1, if_pos h2]
        exact asc_cons_iff.mpr ⟨fun u hu => h2 ▸ hq u hu, hqs⟩
      · rw [insertPoint, if_neg h1, if_neg h2]
        refine asc_cons_iff.mpr ⟨?_, ih hqs⟩
        intro u hu
        rcases mem_insertPoint hu with rfl | hu
        · rcases lt_trichotomy u.timestamp q.timestamp with hh | hh | hh
          · exact absurd hh h1
          · exact absurd hh h2
          · exact hh
        · exact hq u hu

theorem asc_sortPoints_aux (ps : List TimePoint) (acc : List TimePoint) (h : Asc acc) :
    Asc (ps.foldl (fun acc t => insertPoint t acc) acc) := by
  induction ps generalizing acc with
  | nil => exact h
  | cons t ts ih => exact ih (insertPoint t acc) (asc_insertPoint h)

theorem asc_sortPoints (ps : List TimePoint) : Asc (sortPoints ps) :=
  asc_sortPoints_aux ps [] List.Pairwise.nil

theorem ts_mem_foldl {b : Int} (ps : List TimePoint) (acc : List TimePoint) :
    (∃ x ∈ ps.foldl (fun acc t => insertPoint t acc) acc, x.timestamp = b) ↔
      (∃ x ∈ acc, x.timestamp = b) ∨ ∃ x ∈ ps, x.timestamp = b := by
  induction ps generalizing acc with
  | nil => simp
  | cons t ts ih =>
    rw [List.foldl_cons, ih]
    rw [ts_mem_insertPoint]
    constructor
    · rintro ((rfl | h) | h)
      · exact Or.inr ⟨t, List.mem_cons_self _ _, rfl⟩
      · exact Or.inl h
      · rcases h with ⟨x, hx, hts⟩
        exact Or.inr ⟨x, List.mem_cons_of_mem t hx, hts⟩
    · rintro (h | ⟨x, hx, hts⟩)
      · exact Or.inl (Or.inr h)
      · rcases List.mem_cons.mp hx with rfl | hx
        · exact Or.inl (Or.inl hts.symm)
        · exact Or.inr ⟨x, hx, hts⟩

theorem ts_mem_sortPoints {b : Int} {ps : List TimePoint} :
    (∃ x ∈ sortPoints ps, x.timestamp = b) ↔ ∃ x ∈ ps, x.timestamp = b := by
  unfold sortPoints
  rw [ts_mem_foldl]
  simp

theorem mem_allPoints {u : TimePoint} {series : List (Nat × List TimePoint)} :
    u ∈ allPoints series ↔ ∃ s ∈ series, u ∈ s.2 := by
  induction series with
  | nil => simp [allPoints]
  | cons s ss ih =>
    unfold allPoints at ih ⊢
    rw [List.foldr_cons, List.mem_append, ih]
    constructor
    · rintro (h | ⟨x, hx, hu⟩)
      · exact ⟨s, List.mem_cons_self _ _, h⟩
      · exact ⟨x, List.mem_cons_of_mem s hx, hu⟩
    · rintro ⟨x, hx, hu⟩
      rcases List.mem_cons.mp hx with rfl | hx
      · exact Or.inl hu
      · exact Or.inr ⟨x, hx, hu⟩

theorem mem_takeWhile_lt {x : Int} {l : List TimePoint} {a : TimePoint}
    (h : a ∈ l.takeWhile (fun q => decide (q.timestamp < x))) : a.timestamp < x := by
  have := List.mem_takeWhile_imp h
  simpa using this

theorem mem_dropWhile_not_lt {x : Int} {l : List TimePoint} (hasc : Asc l) :
    ∀ a ∈ l.dropWhile (fun q => decide (q.timestamp < x)), ¬ a.timestamp < x := by
  induction l with
  | nil => simp
  | cons q qs ih =>
    rcases asc_cons_iff.mp hasc with ⟨hq, hqs⟩
    by_cases h1 : q.timestamp < x
    · rw [List.dropWhile_cons_of_pos (by simpa using h1)]
      exact ih hqs
    · rw [List.dropWhile_cons_of_neg (by simpa using h1)]
      intro a ha
      rcases List.mem_cons.mp ha with rfl | ha
      · exact h1
      · intro hc
        exact h1 (lt_trans (hq a ha) hc)

theorem dropWhile_eq_filter_of_asc {x : Int} {l : List TimePoint} (hasc : Asc l)
    (hnot : ¬ ∃ q ∈ l, q.timestamp = x) :
    l.dropWhile (fun q => decide (q.timestamp < x)) =
      l.filter (fun q => decide (x < q.timestamp)) := by
  induction l with
  | nil => simp
  | cons q qs ih =>
    rcases asc_cons_iff.mp hasc with ⟨hq, hqs⟩
    have hqx : q.timestamp ≠ x := fun hc => hnot ⟨q, List.mem_cons_self _ _, hc⟩
    by_cases h1 : q.timestamp < x
    · rw [List.dropWhile_cons_of_pos (by simpa using h1),
        List.filter_cons_of_neg (by simp; exact le_of_lt h1)]
      exact ih hqs (fun ⟨u, hu, hux⟩ => hnot ⟨u, List.mem_cons_of_mem q hu, hux⟩)
    · have hxq : x < q.timestamp := lt_of_le_of_ne (not_lt.mp h1) (fun h => hqx h.symm)
      rw [List.dropWhile_cons_of_neg (by simpa using h1),
        List.filter_cons_of_pos (by simpa using hxq)]
      congr 1
      have hall : ∀ u ∈ qs, x < u.timestamp := fun u hu => lt_trans hxq (hq u hu)
      rw [eq_comm]
      rw [List.filter_eq_self]
      intro u hu
      simpa using hall u hu

theorem scaleIndex_le_length (scale : List TimePoint) (x : Int) :
    scaleIndex scale x ≤ scale.length := by
  unfold scaleIndex
  exact List.Sublist.length_le (List.takeWhile_sublist _)

theorem scaleIndex_countP {x : Int} {l : List TimePoint} (hasc : Asc l) :
    scaleIndex l x = l.countP (fun q => decide (q.timestamp < x)) := by
  induction l with
  | nil => simp [scaleIndex]
  | cons q qs ih =>
    rcases asc_cons_iff.mp hasc with ⟨hq, hqs⟩
    by_cases h1 : q.timestamp < x
    · unfold scaleIndex
      rw [List.takeWhile_cons_of_pos (by simpa using h1), List.countP_cons_of_pos _ _ (by simpa using h1)]
      simpa [scaleIndex] using ih hqs
    · unfold scaleIndex
      rw [List.takeWhile_cons_of_neg (by simpa using h1), List.countP_cons_of_neg _ _ (by simpa using h1)]
      simp only [List.length_nil]
      rw [eq_comm, List.countP_eq_zero]
      intro u hu
      simp only [decide_eq_true_eq]
      intro hc
      exact h1 (lt_trans (hq u hu) hc)

theorem countP_mono_strict {p q : TimePoint → Bool} {l : List TimePoint}
    (himp : ∀ a ∈ l, p a = true → q a = true) {w : TimePoint} (hw : w ∈ l)
    (hqw : q w = true) (hpw : p w = false) :
    l.countP p < l.countP q := by
  induction l with
  | nil => cases hw
  | cons a as ih =>
    have hsub : as.countP p ≤ as.countP q :=
      List.countP_mono_left (fun x hx => himp x (List.mem_cons_of_mem a hx))
    rcases List.mem_cons.mp hw with rfl | hw
    · rw [List.countP_cons_of_pos _ _ hqw, List.countP_cons, hpw]
      simpa using Nat.lt_succ_of_le hsub
    · have := ih (fun x hx hp => himp x (List.mem_cons_of_mem a hx) hp) hw
      by_cases hpa : p a = true
      · rw [List.countP_cons_of_pos _ _ hpa, List.countP_cons_of_pos _ _ (himp a (List.mem_cons_self _ _) hpa)]
        exact Nat.succ_lt_succ this
      · rw [List.countP_cons_of_neg _ _ (by simpa using hpa), List.countP_cons]
        exact Nat.lt_of_lt_of_le this (Nat.le_add_right _ _)

theorem enumFrom_map_time (i : Nat) (l : List TimePoint) :
    (enumFrom i l).map Bar.time = l := by
  induction l generalizing i with
  | nil => simp [enumFrom]
  | cons t ts ih => simp [enumFrom, ih]

theorem enumFrom_map_index (i : Nat) (l : List TimePoint) :
    (enumFrom i l).map Bar.index = List.range' i l.length := by
  induction l generalizing i with
  | nil => simp [enumFrom]
  | cons t ts ih => simp [enumFrom, List.range'_succ, ih]

theorem enumFrom_ne_nil (i : Nat) (t : TimePoint) (l : List TimePoint) :
    enumFrom i (t :: l) ≠ [] := by
  simp [enumFrom]

theorem asc_insert {S : List TimePoint} {t : TimePoint} (hasc : Asc S)
    (hnot : ¬ ∃ q ∈ S, q.timestamp = t.timestamp) :
    Asc (S.takeWhile (fun q => decide (q.timestamp < t.timestamp)) ++
      t :: S.dropWhile (fun q => decide (q.timestamp < t.timestamp))) := by
  unfold Asc
  rw [List.pairwise_append]
  refine ⟨List.Pairwise.sublist (List.takeWhile_sublist _) hasc, ?_, ?_⟩
  · rw [List.pairwise_cons]
    refine ⟨?_, List.Pairwise.sublist (List.dropWhile_sublist _) hasc⟩
    intro u hu
    have h1 := mem_dropWhile_not_lt hasc u hu
    have h2 : u.timestamp ≠ t.timestamp := by
      intro hc
      exact hnot ⟨u, (List.dropWhile_sublist _).mem hu, hc⟩
    exact lt_of_le_of_ne (not_lt.mp h1) (Ne.symm h2)
  · intro a ha b hb
    have ha' := mem_takeWhile_lt ha
    rcases List.mem_cons.mp hb with rfl | hb
    · exact ha'
    · have h1 := mem_dropWhile_not_lt hasc b hb
      exact lt_of_lt_of_le ha' (not_lt.mp h1)

theorem insertPoint_eq_append {t : TimePoint} {l : List TimePoint} (hasc : Asc l)
    (hnot : ¬ ∃ q ∈ l, q.timestamp = t.timestamp) :
    insertPoint t l = l.takeWhile (fun q => decide (q.timestamp < t.timestamp)) ++
      t :: l.dropWhile (fun q => decide (q.timestamp < t.timestamp)) := by
  induction l with
  | nil => simp [insertPoint]
  | cons q qs ih =>
    rcases asc_cons_iff.mp hasc with ⟨hq, hqs⟩
    have hqt : q.timestamp ≠ t.timestamp := fun hc => hnot ⟨q, List.mem_cons_self _ _, hc⟩
    by_cases h1 : t.timestamp < q.timestamp
    · rw [insertPoint, if_pos h1, List.takeWhile_cons_of_neg (by simp; exact le_of_lt h1),
        List.dropWhile_cons_of_neg (by simp; exact le_of_lt h1)]
      simp
    · have hql : q.timestamp < t.timestamp := lt_of_le_of_ne (not_lt.mp h1) hqt
      rw [insertPoint, if_neg h1, if_neg (fun hc => hqt hc.symm),
        List.takeWhile_cons_of_pos (by simpa using hql),
        List.dropWhile_cons_of_pos (by simpa using hql), List.cons_append]
      rw [ih hqs (fun ⟨u, hu, hux⟩ => hnot ⟨u, List.mem_cons_of_mem q hu, hux⟩)]

theorem scaleIndex_insert_self {S : List TimePoint} {t : TimePoint} (hasc : Asc S)
    (hnot : ¬ ∃ q ∈ S, q.timestamp = t.timestamp) :
    scaleIndex (S.takeWhile (fun q => decide (q.timestamp < t.timestamp)) ++
      t :: S.dropWhile (fun q => decide (q.timestamp < t.timestamp))) t.timestamp =
      scaleIndex S t.timestamp := by
  rw [scaleIndex_countP (asc_insert hasc hnot), List.countP_append, List.countP_cons]
  simp only [decide_eq_true_eq, lt_irrefl, decide_False]
  rw [scaleIndex_countP hasc]
  conv_rhs => rw [← List.takeWhile_append_dropWhile
    (p := fun q => decide (q.timestamp < t.timestamp)) (l := S)]
  rw [List.countP_append]
  have : (S.dropWhile (fun q => decide (q.timestamp < t.timestamp))).countP
      (fun q => decide (q.timestamp < t.timestamp)) = 0 := by
    rw [List.countP_eq_zero]
    intro u hu
    simpa using mem_dropWhile_not_lt hasc u hu
  simp [this]

theorem scaleIndex_insert_other {S : List TimePoint} {t : TimePoint} (hasc : Asc S)
    (hnot : ¬ ∃ q ∈ S, q.timestamp = t.timestamp) (b : Int) :
    scaleIndex (S.takeWhile (fun q => decide (q.timestamp < t.timestamp)) ++
      t :: S.dropWhile (fun q => decide (q.timestamp < t.timestamp))) b =
      scaleIndex S b + (if t.timestamp < b then 1 else 0) := by
  rw [scaleIndex_countP (asc_insert hasc hnot), List.countP_append, List.countP_cons,
    scaleIndex_countP hasc]
  conv_rhs => rw [← List.takeWhile_append_dropWhile
    (p := fun q => decide (q.timestamp < t.timestamp)) (l := S)]
  rw [List.countP_append]
  simp only [decide_eq_true_eq]
  omega

theorem get_scaleIndex_of_mem {S : List TimePoint} {x : Int} (hasc : Asc S)
    (hmem : ∃ q ∈ S, q.timestamp = x) :
    (S[scaleIndex S x]?).map TimePoint.timestamp = some x := by
  induction S with
  | nil => rcases hmem with ⟨q, hq, _⟩; cases hq
  | cons q qs ih =>
    rcases asc_cons_iff.mp hasc with ⟨hq, hqs⟩
    by_cases h1 : q.timestamp < x
    · have hmem' : ∃ u ∈ qs, u.timestamp = x := by
        rcases hmem with ⟨u, hu, hux⟩
        rcases List.mem_cons.mp hu with rfl | hu
        · exact absurd hux (ne_of_lt h1)
        · exact ⟨u, hu, hux⟩
      unfold scaleIndex
      rw [List.takeWhile_cons_of_pos (by simpa using h1)]
      simpa [scaleIndex] using ih hqs hmem'
    · have hqx : q.timestamp = x := by
        rcases hmem with ⟨u, hu, hux⟩
        rcases List.mem_cons.mp hu with rfl | hu
        · exact hux
        · exact absurd (hux ▸ hq u hu) h1
      unfold scaleIndex
      rw [List.takeWhile_cons_of_neg (by simpa using h1)]
      simp [hqx]

/-- Claim C4, counterexample: after `removeSeries` of the third series of the
`removeSeries` unit test's layer, the point 4000 — previously at scale index
2 and contributed only by the removed series — is gone from the scale, and
the remaining points' indices shift down; the claim that the scale never
shrinks and indices never shift is false on this input. -/
theorem removeSeries_shrinks_counter :
    remLayer.scale[2]? = some (tp 4000) ∧
    remLayer.scale.length = 6 ∧
    (removeSeries remLayer 3).2.scale = [tp 2000, tp 3000, tp 5000, tp 7000] ∧
    tp 4000 ∉ (removeSeries remLayer 3).2.scale ∧
    (removeSeries remLayer 3).2.scale[3]? = some (tp 7000) ∧
    remLayer.scale[3]? = some (tp 5000) := by decide

/-- Claim C4, amended: `removeSeries` drops the series from the registry and
rebuilds the shared scale from the remaining series' points; timestamps
contributed exclusively by the removed series are garbage-collected and the
remaining points' indices shift down to keep the scale dense and ascending
(equivalently, removal behaves like setting the series' data to empty). -/
theorem removeSeries_rebuilds (l : DataLayer) (sid : Nat) (b : Int) :
    (b ∈ (removeSeries l sid).2.scale.map TimePoint.timestamp ↔
      ∃ s ∈ l.series, s.1 ≠ sid ∧ b ∈ s.2.map TimePoint.timestamp) ∧
    Asc (removeSeries l sid).2.scale ∧
    (removeSeries l sid).2.series = l.series.filter (fun s => s.1 != sid) := by
  refine ⟨?_, asc_sortPoints _, rfl⟩
  show b ∈ (rebuildScale (l.series.filter (fun s => s.1 != sid))).map TimePoint.timestamp ↔ _
  rw [List.mem_map]
  unfold rebuildScale
  constructor
  · rintro ⟨x, hx, rfl⟩
    rcases ts_mem_sortPoints.mp ⟨x, hx, rfl⟩ with ⟨y, hy, hyts⟩
    rcases mem_allPoints.mp hy with ⟨s, hs, hys⟩
    rcases List.mem_filter.mp hs with ⟨hsl, hsid⟩
    exact ⟨s, hsl, by simpa using hsid, List.mem_map.mpr ⟨y, hys, hyts⟩⟩
  · rintro ⟨s, hsl, hsid, hb⟩
    rcases List.mem_map.mp hb with ⟨y, hys, rfl⟩
    have hy : y ∈ allPoints (l.series.filter (fun s => s.1 != sid)) :=
      mem_allPoints.mpr ⟨s, List.mem_filter.mpr ⟨hsl, by simpa using hsid⟩, hys⟩
    rcases ts_mem_sortPoints.mpr ⟨y, hy, rfl⟩ with ⟨x, hx, hxts⟩
    exact ⟨x, hx, hxts⟩

/-- Claim C8, confirmed: `convertTime` is a pure function (determinism is by
construction in this embedding); a business day converts to the
proleptic-Gregorian UTC-midnight timestamp of the date and carries the
original triple back in `businessDay` (round trip), while a plain timestamp
converts to itself with no `businessDay`; the concrete values are the ones
the unit tests pin (`data-layer.spec.ts` lines 294–320 and 353–357). -/
theorem convertTime_round_trip :
    (∀ ts : Int, convertTime (.utc ts) = ⟨ts, none⟩) ∧
    (∀ bd : BusinessDay, (convertTime (.business bd)).businessDay = some bd) ∧
    (∀ bd : BusinessDay, (convertTime (.business bd)).timestamp =
      86400 * daysFromCivil bd.year bd.month bd.day) ∧
    convertTime (.business ⟨2019, 10, 1⟩) = ⟨1569888000, some ⟨2019, 10, 1⟩⟩ ∧
    convertTime (.business ⟨2019, 10, 2⟩) = ⟨1569974400, some ⟨2019, 10, 2⟩⟩ ∧
    convertTime (.business ⟨2018, 10, 1⟩) = ⟨1538352000, some ⟨2018, 10, 1⟩⟩ ∧
    convertTime (.utc 1554792010) = ⟨1554792010, none⟩ :=
  ⟨fun _ => rfl, fun _ => rfl, fun _ => rfl, by decide, by decide, by decide, rfl⟩

/-- Claim C9, counterexample: "2019-15-01" matches the `YYYY-MM-DD` shape but
the parser still raises `ParseError` (month 15 fails the calendar-range
validation, exactly as the unit test at `data-layer.spec.ts` line 360
requires), so the claim that `ParseError` is raised exactly on shape
mismatches — and that such strings are accepted at parse time — is false. -/
theorem stringToBusinessDay_range_counter :
    matchesDateShape "2019-15-01" = true ∧
    stringToBusinessDay "2019-15-01" = .error .invalidDate ∧
    stringToBusinessDay "2019-05-01" = .ok ⟨2019, 5, 1⟩ := by decide

/-- Claim C9, amended: `stringToBusinessDay` accepts exactly the strings that
both match the strict `YYYY-MM-DD` shape and carry calendrically valid
month/day ranges; every successful parse satisfies the shape and the ranges,
so a well-shaped but calendrically invalid string such as "2019-15-01" is
rejected at parse time rather than downstream. -/
theorem stringToBusinessDay_ok_shape (s : String) (bd : BusinessDay)
    (h : stringToBusinessDay s = .ok bd) :
    matchesDateShape s = true ∧ 1 ≤ bd.month ∧ bd.month ≤ 12 ∧ 1 ≤ bd.day ∧
      bd.day ≤ daysInMonth bd.year bd.month := by
  unfold stringToBusinessDay at h
  by_cases hs : matchesDateShape s
  · rw [if_pos hs] at h
    refine ⟨hs, ?_⟩
    split at h
    · dsimp only at h
      split at h
      · rename_i hcond
        cases h
        exact ⟨hcond.1, hcond.2.1, hcond.2.2.1, hcond.2.2.2⟩
      · cases h
    · cases h
  · rw [if_neg hs] at h
    cases h

/-- Claim C9, witness: the amended theorem evaluated at the date string the
unit test uses. -/
theorem stringToBusinessDay_ok_shape_witness :
    matchesDateShape "2019-05-01" = true ∧ 1 ≤ (2019 : Int) - 2014 ∧
      (5 : Int) ≤ 12 ∧ 1 ≤ (1 : Int) ∧ (1 : Int) ≤ daysInMonth 2019 5 := by
  have := stringToBusinessDay_ok_shape "2019-05-01" ⟨2019, 5, 1⟩ (by decide)
  exact ⟨this.1, by norm_num, by norm_num, by norm_num, this.2.2.2.2⟩

theorem take_takeWhile_length (p : TimePoint → Bool) (l : List TimePoint) :
    l.take (l.takeWhile p).length = l.takeWhile p := by
  induction l with
  | nil => simp
  | cons a as ih =>
    by_cases h : p a
    · rw [List.takeWhile_cons_of_pos h]
      simpa [List.take_succ_cons] using ih
    · rw [List.takeWhile_cons_of_neg (by simpa using h)]
      simp

theorem getElem_at_takeWhile_length (p : TimePoint → Bool) (l : List TimePoint) :
    l[(l.takeWhile p).length]? = (l.dropWhile p).head? := by
  induction l with
  | nil => simp
  | cons a as ih =>
    by_cases h : p a
    · rw [List.takeWhile_cons_of_pos h, List.dropWhile_cons_of_pos h]
      simpa using ih
    · rw [List.takeWhile_cons_of_neg (by simpa using h),
        List.dropWhile_cons_of_neg (by simpa using h)]
      simp

theorem updateSeriesData_insert_eq (l : DataLayer) (sid : Nat) (v : TimeValue)
    (hk : updKindOk l v = true)
    (hnot : ¬ ∃ q ∈ l.scale, q.timestamp = (convertTime v).timestamp) :
    updateSeriesData l sid v = .ok (⟨scaleIndex l.scale (convertTime v).timestamp,
      insertTail l.scale (convertTime v),
      enumFrom (scaleIndex l.scale (convertTime v).timestamp) (insertTail l.scale (convertTime v)),
      shiftedPackets (setEntry l.series sid (insertPoint (convertTime v) (seriesPoints l sid)))
        (insertScale l.scale (convertTime v)) (scaleIndex l.scale (convertTime v).timestamp)⟩,
      ⟨setEntry l.series sid (insertPoint (convertTime v) (seriesPoints l sid)),
        insertScale l.scale (convertTime v)⟩) := by
  have hany : l.scale.any (fun q => q.timestamp == (convertTime v).timestamp) = false := by
    rw [List.any_eq_false]
    intro q hq
    simp only [beq_iff_eq]
    exact fun hc => hnot ⟨q, hq, hc⟩
  unfold updateSeriesData
  rw [if_pos hk, if_neg (by simp [hany])]

/-- Claim C1, counterexample: inserting timestamp 4000 into the middle of the
scale of the `add new point in the middle` unit test returns `changes`
containing the points 5000 and 6000, although both were already present in
the scale before the call (only their indices shifted); the claim that
already-present points never appear in `changes` is false on this input
(`data-layer.spec.ts` lines 227–228 assert exactly these three members). -/
theorem changes_contains_shifted_counter :
    (okUpdate (updateSeriesData midLayer 2 (.utc 4000))).changes =
      [tp 4000, tp 5000, tp 6000] ∧
    tp 5000 ∈ midLayer.scale ∧ tp 6000 ∈ midLayer.scale ∧
    tp 4000 ∉ midLayer.scale := by decide

/-- Claim C1, amended: for an `updateSeriesData` call that inserts a new
timestamp, `changes` is the inserted point followed by every pre-existing
scale point with a larger timestamp — i.e. the inserted point plus exactly
the points whose index shifted — not merely the newly inserted points; for
`setSeriesData` and `removeSeries`, `changes` is the entire rebuilt scale,
already-present points included. -/
theorem updateSeriesData_changes (l : DataLayer) (sid : Nat) (v : TimeValue)
    (hasc : Asc l.scale) (hk : updKindOk l v = true)
    (hnot : ¬ ∃ q ∈ l.scale, q.timestamp = (convertTime v).timestamp) :
    (updateSeriesData l sid v).isOk = true ∧
    (okUpdate (updateSeriesData l sid v)).changes =
      convertTime v ::
        l.scale.filter (fun q => decide ((convertTime v).timestamp < q.timestamp)) ∧
    ∀ series2 : List (Nat × List TimePoint),
      (rebuildResult series2).1.changes = (rebuildResult series2).2.scale := by
  rw [updateSeriesData_insert_eq l sid v hk hnot]
  refine ⟨rfl, ?_, fun _ => rfl⟩
  show insertTail l.scale (convertTime v) = _
  unfold insertTail
  rw [dropWhile_eq_filter_of_asc hasc hnot]

/-- Claim C1, witness: the amended theorem evaluated on the layer of the
`add new point in the middle` unit test, its rebuild clause instantiated at
that layer's registry. -/
theorem updateSeriesData_changes_witness :
    (updateSeriesData midLayer 2 (.utc 4000)).isOk = true ∧
    (okUpdate (updateSeriesData midLayer 2 (.utc 4000))).changes =
      convertTime (.utc 4000) ::
        midLayer.scale.filter
          (fun q => decide ((convertTime (.utc 4000)).timestamp < q.timestamp)) ∧
    (rebuildResult midLayer.series).1.changes = (rebuildResult midLayer.series).2.scale := by
  have h := updateSeriesData_changes midLayer 2 (.utc 4000) (by decide) (by decide) (by decide)
  exact ⟨h.1, h.2.1, h.2.2 midLayer.series⟩

/-- Claim C2, counterexample: registering a second series with timestamps
2000 and 4000 against the scale `[1000, 3000]` leaves scale position 0
unchanged (1000 stays at index 0) and first differs at position 1, yet the
returned `timeScaleUpdate.index` is 0, not 1; the claim is false for
`setSeriesData` (`data-layer.spec.ts` lines 54–55 assert index 0). -/
theorem setSeriesData_index_zero_counter :
    (setSeriesData c2Layer 2 [.utc 2000, .utc 4000]).isOk = true ∧
    (okUpdate (setSeriesData c2Layer 2 [.utc 2000, .utc 4000])).index = 0 ∧
    (okLayer (setSeriesData c2Layer 2 [.utc 2000, .utc 4000])).scale =
      [tp 1000, tp 2000, tp 3000, tp 4000] ∧
    (okLayer (setSeriesData c2Layer 2 [.utc 2000, .utc 4000])).scale[0]? =
      c2Layer.scale[0]? ∧
    (okLayer (setSeriesData c2Layer 2 [.utc 2000, .utc 4000])).scale[1]? ≠
      c2Layer.scale[1]? := by decide

/-- Claim C2, amended: for an `updateSeriesData` call that inserts a new
timestamp into the shared scale, the returned `index` is the lowest scale
index at which the new scale differs from the old one (every position below
it is unchanged, the position itself differs — the insertion position, from
which existing points shift); `setSeriesData` and `removeSeries`, by
contrast, rebuild the scale and always return `index = 0`. -/
theorem updateSeriesData_first_changed (l : DataLayer) (sid : Nat) (v : TimeValue)
    (hk : updKindOk l v = true)
    (hnot : ¬ ∃ q ∈ l.scale, q.timestamp = (convertTime v).timestamp) :
    (updateSeriesData l sid v).isOk = true ∧
    (okLayer (updateSeriesData l sid v)).scale.take
        ((okUpdate (updateSeriesData l sid v)).index) =
      l.scale.take ((okUpdate (updateSeriesData l sid v)).index) ∧
    (okLayer (updateSeriesData l sid v)).scale[(okUpdate (updateSeriesData l sid v)).index]? ≠
      l.scale[(okUpdate (updateSeriesData l sid v)).index]? := by
  rw [updateSeriesData_insert_eq l sid v hk hnot]
  refine ⟨rfl, ?_, ?_⟩
  · show (insertScale l.scale (convertTime v)).take (scaleIndex l.scale (convertTime v).timestamp) =
      l.scale.take (scaleIndex l.scale (convertTime v).timestamp)
    unfold insertScale scaleIndex
    rw [List.take_left, take_takeWhile_length]
  · show (insertScale l.scale (convertTime v))[scaleIndex l.scale (convertTime v).timestamp]? ≠
      l.scale[scaleIndex l.scale (convertTime v).timestamp]?
    unfold insertScale scaleIndex insertTail
    rw [List.getElem?_append_right (le_refl _), Nat.sub_self,
      getElem_at_takeWhile_length]
    rcases hd : l.scale.dropWhile (fun q => decide (q.timestamp < (convertTime v).timestamp)) with
      _ | ⟨q, rest⟩
    · rw [hd]
      simp
    · have hq : q ∈ l.scale := by
        have hmem : q ∈ l.scale.dropWhile
            (fun q => decide (q.timestamp < (convertTime v).timestamp)) := by
          rw [hd]; exact List.mem_cons_self _ _
        exact (List.dropWhile_sublist _).mem hmem
      have hne : q ≠ convertTime v := by
        intro hc
        exact hnot ⟨q, hq, by rw [hc]⟩
      rw [hd]
      simp only [List.getElem?_cons_zero, List.head?_cons]
      exact fun hc => hne (by injection hc with h; exact h.symm)

/-- Claim C2, witness: the amended theorem evaluated on the layer of the
`add new point in the middle` unit test. -/
theorem updateSeriesData_first_changed_witness :
    (updateSeriesData midLayer 2 (.utc 4000)).isOk = true ∧
    (okLayer (updateSeriesData midLayer 2 (.utc 4000))).scale.take
        ((okUpdate (updateSeriesData midLayer 2 (.utc 4000))).index) =
      midLayer.scale.take ((okUpdate (updateSeriesData midLayer 2 (.utc 4000))).index) ∧
    (okLayer (updateSeriesData midLayer 2 (.utc 4000))).scale[
        (okUpdate (updateSeriesData midLayer 2 (.utc 4000))).index]? ≠
      midLayer.scale[(okUpdate (updateSeriesData midLayer 2 (.utc 4000))).index]? :=
  updateSeriesData_first_changed midLayer 2 (.utc 4000) (by decide) (by decide)

/-- Claim C3, counterexample: replacing the last point of the first series of
the `change last existing point` unit test (timestamp 4000, already in the
scale) returns `index = 2` — a valid position of the three-entry scale — yet
`marks` is empty, so the claim that `marks` always covers every scale entry
from `index` to the end (and is non-empty whenever `index` is a valid scale
position) is false on this input (`data-layer.spec.ts` lines 189 and 198). -/
theorem marks_empty_on_replace_counter :
    (updateSeriesData lastLayer 1 (.utc 4000)).isOk = true ∧
    (okUpdate (updateSeriesData lastLayer 1 (.utc 4000))).index = 2 ∧
    (okLayer (updateSeriesData lastLayer 1 (.utc 4000))).scale.length = 3 ∧
    (okUpdate (updateSeriesData lastLayer 1 (.utc 4000))).marks = [] := by decide

/-- Claim C3, amended: for an `updateSeriesData` call that inserts a new
point, `marks` is the ordered `\x7b index, time \x7d` sequence covering
every scale entry from `timeScaleUpdate.index` to the end of the scale —
non-empty, its mark indices the consecutive range from `index` to the end,
its mark times the scale entries from `index` on, and its last entry the
last scale entry; for a replace-in-place call the scale is unchanged and
`marks` is empty even though `index` is a valid scale position; for
`setSeriesData` and `removeSeries`, `marks` enumerates the whole rebuilt
scale from index 0 (so it is empty exactly when the rebuilt scale is
empty). -/
theorem updateSeriesData_marks (l : DataLayer) (sid : Nat) (v : TimeValue)
    (hk : updKindOk l v = true)
    (hnot : ¬ ∃ q ∈ l.scale, q.timestamp = (convertTime v).timestamp) :
    (updateSeriesData l sid v).isOk = true ∧
    (okUpdate (updateSeriesData l sid v)).marks.map Bar.time =
      (okLayer (updateSeriesData l sid v)).scale.drop
        ((okUpdate (updateSeriesData l sid v)).index) ∧
    (okUpdate (updateSeriesData l sid v)).marks.map Bar.index =
      List.range' ((okUpdate (updateSeriesData l sid v)).index)
        ((okLayer (updateSeriesData l sid v)).scale.length -
          (okUpdate (updateSeriesData l sid v)).index) ∧
    (okUpdate (updateSeriesData l sid v)).marks ≠ [] ∧
    (okUpdate (updateSeriesData l sid v)).marks.getLast?.map Bar.time =
      (okLayer (updateSeriesData l sid v)).scale.getLast? ∧
    ∀ series2 : List (Nat × List TimePoint),
      (rebuildResult series2).1.marks.map Bar.time = (rebuildResult series2).2.scale ∧
      (rebuildResult series2).1.marks.map Bar.index =
        List.range' 0 ((rebuildResult series2).2.scale.length) := by
  rw [updateSeriesData_insert_eq l sid v hk hnot]
  refine ⟨rfl, ?_, ?_, ?_, ?_,
    fun series2 => ⟨enumFrom_map_time 0 _, enumFrom_map_index 0 _⟩⟩
  · show (enumFrom (scaleIndex l.scale (convertTime v).timestamp)
        (insertTail l.scale (convertTime v))).map Bar.time =
      (insertScale l.scale (convertTime v)).drop (scaleIndex l.scale (convertTime v).timestamp)
    rw [enumFrom_map_time]
    unfold insertScale scaleIndex
    rw [List.drop_left]
  · show (enumFrom (scaleIndex l.scale (convertTime v).timestamp)
        (insertTail l.scale (convertTime v))).map Bar.index =
      List.range' (scaleIndex l.scale (convertTime v).timestamp)
        ((insertScale l.scale (convertTime v)).length -
          (scaleIndex l.scale (convertTime v).timestamp))
    rw [enumFrom_map_index]
    congr 1
    unfold insertScale scaleIndex
    rw [List.length_append]
    omega
  · show enumFrom (scaleIndex l.scale (convertTime v).timestamp)
        (insertTail l.scale (convertTime v)) ≠ []
    unfold insertTail
    exact enumFrom_ne_nil _ _ _
  · show (enumFrom (scaleIndex l.scale (convertTime v).timestamp)
        (insertTail l.scale (convertTime v))).getLast?.map Bar.time =
      (insertScale l.scale (convertTime v)).getLast?
    rw [← List.getLast?_map, enumFrom_map_time]
    unfold insertScale
    rw [List.getLast?_append_of_ne_nil _ (by unfold insertTail; simp)]

/-- Claim C3, witness: the amended theorem evaluated on the layer of the
`add new point in the middle` unit test, its rebuild clause instantiated at
the registry of the `removeSeries` unit test's layer with its third series
dropped. -/
theorem updateSeriesData_marks_witness :
    (updateSeriesData midLayer 1 (.utc 4500)).isOk = true ∧
    (okUpdate (updateSeriesData midLayer 1 (.utc 4500))).marks.map Bar.time =
      (okLayer (updateSeriesData midLayer 1 (.utc 4500))).scale.drop
        ((okUpdate (updateSeriesData midLayer 1 (.utc 4500))).index) ∧
    (okUpdate (updateSeriesData midLayer 1 (.utc 4500))).marks.map Bar.index =
      List.range' ((okUpdate (updateSeriesData midLayer 1 (.utc 4500))).index)
        ((okLayer (updateSeriesData midLayer 1 (.utc 4500))).scale.length -
          (okUpdate (updateSeriesData midLayer 1 (.utc 4500))).index) ∧
    (okUpdate (updateSeriesData midLayer 1 (.utc 4500))).marks ≠ [] ∧
    (okUpdate (updateSeriesData midLayer 1 (.utc 4500))).marks.getLast?.map Bar.time =
      (okLayer (updateSeriesData midLayer 1 (.utc 4500))).scale.getLast? ∧
    (rebuildResult (remLayer.series.filter (fun s => s.1 != 3))).1.marks.map Bar.time =
      (rebuildResult (remLayer.series.filter (fun s => s.1 != 3))).2.scale ∧
    (rebuildResult (remLayer.series.filter (fun s => s.1 != 3))).1.marks.map Bar.index =
      List.range'
        0 ((rebuildResult (remLayer.series.filter (fun s => s.1 != 3))).2.scale.length) := by
  have h := updateSeriesData_marks midLayer 1 (.utc 4500) (by decide) (by decide)
  exact ⟨h.1, h.2.1, h.2.2.1, h.2.2.2.1, h.2.2.2.2.1,
    (h.2.2.2.2.2 (remLayer.series.filter (fun s => s.1 != 3))).1,
    (h.2.2.2.2.2 (remLayer.series.filter (fun s => s.1 != 3))).2⟩

theorem updateSeriesData_replace_eq (l : DataLayer) (sid : Nat) (v : TimeValue)
    (hk : updKindOk l v = true)
    (hmem : ∃ q ∈ l.scale, q.timestamp = (convertTime v).timestamp) :
    updateSeriesData l sid v = .ok (⟨scaleIndex l.scale (convertTime v).timestamp, [], [],
      [(sid, ⟨[⟨scaleIndex l.scale (convertTime v).timestamp, convertTime v⟩]⟩)]⟩,
      ⟨setEntry l.series sid (insertPoint (convertTime v) (seriesPoints l sid)), l.scale⟩) := by
  have hany : l.scale.any (fun q => q.timestamp == (convertTime v).timestamp) = true := by
    rw [List.any_eq_true]
    rcases hmem with ⟨q, hq, hts⟩
    exact ⟨q, hq, by simpa using hts⟩
  unfold updateSeriesData
  rw [if_pos hk, if_pos hany]

theorem seriesPoints_mem_series (l : DataLayer) (sid : Nat)
    (hne : seriesPoints l sid ≠ []) :
    ∃ s ∈ l.series, s.1 = sid ∧ s.2 = seriesPoints l sid := by
  unfold seriesPoints at hne ⊢
  rcases hf : l.series.find? (fun s => s.1 == sid) with _ | s
  · rw [hf] at hne
    exact absurd rfl hne
  · rw [hf]
    refine ⟨s, List.mem_of_find?_eq_some hf, ?_, rfl⟩
    have := List.find?_some hf
    simpa using this

/-- Claim C5, confirmed: an `updateSeriesData` call whose point carries the
same timestamp as the acting series' current last point is a
replace-in-place — `changes` is empty, the shared scale is unchanged (so it
does not grow), `seriesUpdates` holds exactly one packet, for the acting
series, with exactly one bar whose index is the scale position that
timestamp already occupied before the call. -/
theorem updateSeriesData_replace_in_place (l : DataLayer) (sid : Nat) (v : TimeValue)
    (lastPt : TimePoint) (hwf : WF l) (hk : updKindOk l v = true)
    (hlast : (seriesPoints l sid).getLast? = some lastPt)
    (heq : (convertTime v).timestamp = lastPt.timestamp) :
    (updateSeriesData l sid v).isOk = true ∧
    (okUpdate (updateSeriesData l sid v)).changes = [] ∧
    (okLayer (updateSeriesData l sid v)).scale = l.scale ∧
    (okUpdate (updateSeriesData l sid v)).seriesUpdates =
      [(sid, ⟨[⟨scaleIndex l.scale lastPt.timestamp, convertTime v⟩]⟩)] ∧
    (okUpdate (updateSeriesData l sid v)).index = scaleIndex l.scale lastPt.timestamp ∧
    (l.scale[scaleIndex l.scale lastPt.timestamp]?).map TimePoint.timestamp =
      some lastPt.timestamp := by
  have hmemPts : lastPt ∈ seriesPoints l sid := List.mem_of_mem_getLast? hlast
  have hne : seriesPoints l sid ≠ [] := by
    intro hc
    rw [hc] at hmemPts
    cases hmemPts
  rcases seriesPoints_mem_series l sid hne with ⟨s, hs, _, hspts⟩
  have hts : lastPt.timestamp ∈ l.scale.map TimePoint.timestamp :=
    hwf.2.2.1 s hs lastPt (by rw [hspts]; exact hmemPts)
  have hmem : ∃ q ∈ l.scale, q.timestamp = (convertTime v).timestamp := by
    rcases List.mem_map.mp hts with ⟨q, hq, hqts⟩
    exact ⟨q, hq, by rw [hqts, heq]⟩
  rw [updateSeriesData_replace_eq l sid v hk hmem, heq]
  exact ⟨rfl, rfl, rfl, rfl, rfl, get_scaleIndex_of_mem hwf.1 (by
    rcases List.mem_map.mp hts with ⟨q, hq, hqts⟩
    exact ⟨q, hq, hqts⟩)⟩

/-- Claim C5, witness: the theorem evaluated on the layer of the `change last
existing point` unit test, replacing the first series' last point (timestamp
4000, scale index 2). -/
theorem updateSeriesData_replace_in_place_witness :
    (updateSeriesData lastLayer 1 (.utc 4000)).isOk = true ∧
    (okUpdate (updateSeriesData lastLayer 1 (.utc 4000))).changes = [] ∧
    (okLayer (updateSeriesData lastLayer 1 (.utc 4000))).scale = lastLayer.scale ∧
    (okUpdate (updateSeriesData lastLayer 1 (.utc 4000))).seriesUpdates =
      [(1, ⟨[⟨scaleIndex lastLayer.scale (tp 4000).timestamp, convertTime (.utc 4000)⟩]⟩)] ∧
    (okUpdate (updateSeriesData lastLayer 1 (.utc 4000))).index =
      scaleIndex lastLayer.scale (tp 4000).timestamp ∧
    (lastLayer.scale[scaleIndex lastLayer.scale (tp 4000).timestamp]?).map TimePoint.timestamp =
      some (tp 4000).timestamp :=
  updateSeriesData_replace_in_place lastLayer 1 (.utc 4000) (tp 4000)
    (by decide) (by decide) (by decide) (by decide)

theorem sameKindList_eq {data : List TimeValue} (h : sameKindList data = true) :
    ∀ v ∈ data, ∀ w ∈ data, tvKind v = tvKind w := by
  cases data with
  | nil => intro v hv; cases hv
  | cons a rest =>
    unfold sameKindList at h
    rw [List.all_eq_true] at h
    intro v hv w hw
    have hv2 : tvKind v = tvKind a := by
      rcases List.mem_cons.mp hv with rfl | hv
      · rfl
      · simpa using h v hv
    have hw2 : tvKind w = tvKind a := by
      rcases List.mem_cons.mp hw with rfl | hw
      · rfl
      · simpa using h w hw
    rw [hv2, hw2]

/-- Claim C6, confirmed: `setSeriesData` raises `TimeTypeMismatchError`
whenever two points of one call's list carry different time kinds, and
whenever the call's points conflict with the kind established by the other
registered series; `updateSeriesData` raises it whenever the point's kind
conflicts with the kind established across the registered series of the same
`DataLayer` (`data-layer.spec.ts` lines 338–352). -/
theorem timeTypeMismatch_raised :
    (∀ (l : DataLayer) (sid : Nat) (data : List TimeValue) (v w : TimeValue),
      v ∈ data → w ∈ data → tvKind v ≠ tvKind w →
      setSeriesData l sid data = .error .timeTypeMismatch) ∧
    (∀ (l : DataLayer) (sid : Nat) (data : List TimeValue) (v : TimeValue) (k0 : Bool),
      v ∈ data → establishedKind (l.series.filter (fun s => s.1 != sid)) = some k0 →
      tvKind v ≠ k0 → setSeriesData l sid data = .error .timeTypeMismatch) ∧
    (∀ (l : DataLayer) (sid : Nat) (v : TimeValue) (k0 : Bool),
      establishedKind l.series = some k0 → tvKind v ≠ k0 →
      updateSeriesData l sid v = .error .timeTypeMismatch) := by
  refine ⟨?_, ?_, ?_⟩
  · intro l sid data v w hv hw hvw
    unfold setSeriesData
    rw [if_neg]
    intro hok
    unfold setKindOk at hok
    rw [Bool.and_eq_true] at hok
    exact hvw (sameKindList_eq hok.1 v hv w hw)
  · intro l sid data v k0 hv hest hneq
    unfold setSeriesData
    rw [if_neg]
    intro hok
    unfold setKindOk at hok
    rw [Bool.and_eq_true] at hok
    cases data with
    | nil => cases hv
    | cons a rest =>
      have hmatch := hok.2
      rw [List.head?_cons, hest] at hmatch
      have hak : tvKind a = k0 := by simpa using hmatch
      have hva : tvKind v = tvKind a :=
        sameKindList_eq hok.1 v hv a (List.mem_cons_self a rest)
      exact hneq (hva.trans hak)
  · intro l sid v k0 hest hneq
    unfold updateSeriesData
    rw [if_neg]
    intro hok
    unfold updKindOk at hok
    rw [hest] at hok
    exact hneq (by simpa using hok)

/-- Claim C6, witness: the theorem applied to the two unit-test scenarios —
a mixed timestamp/business-day list in one `setSeriesData` call, and a
timestamp update against a business-day layer. -/
theorem timeTypeMismatch_raised_witness :
    setSeriesData emptyDataLayer 1 [.utc 5000, .business ⟨2019, 10, 1⟩] =
      .error .timeTypeMismatch ∧
    updateSeriesData bdLayer 1 (.utc 5000) = .error .timeTypeMismatch :=
  ⟨timeTypeMismatch_raised.1 emptyDataLayer 1 _ (.utc 5000) (.business ⟨2019, 10, 1⟩)
      (by decide) (by decide) (by decide),
    timeTypeMismatch_raised.2.2 bdLayer 1 (.utc 5000) true (by decide) (by decide)⟩

theorem setSeriesData_isOk_iff (l : DataLayer) (sid : Nat) (data : List TimeValue) :
    (setSeriesData l sid data).isOk = true ↔ setKindOk l sid data = true := by
  unfold setSeriesData
  by_cases h : setKindOk l sid data
  · rw [if_pos h]
    simp [h]
    rfl
  · rw [if_neg h]
    simp only [Bool.not_eq_true] at h
    simp [h]
    rfl

theorem updateSeriesData_isOk_iff (l : DataLayer) (sid : Nat) (v : TimeValue) :
    (updateSeriesData l sid v).isOk = true ↔ updKindOk l v = true := by
  unfold updateSeriesData
  by_cases h : updKindOk l v
  · rw [if_pos h]
    by_cases h2 : l.scale.any (fun q => q.timestamp == (convertTime v).timestamp)
    · rw [if_pos h2]
      simp [h]
      rfl
    · rw [if_neg h2]
      simp [h]
      rfl
  · rw [if_neg h]
    simp only [Bool.not_eq_true] at h
    simp [h]
    rfl

theorem establishedKind_some {lst : List (Nat × List TimePoint)} {k0 : Bool}
    (h : establishedKind lst = some k0) :
    ∃ s ∈ lst, ∃ u ∈ s.2, s.2.head? = some u ∧ tpKind u = k0 := by
  rcases List.exists_of_findSome?_eq_some h with ⟨s, hs, hf⟩
  rcases ho : s.2.head? with _ | u
  · rw [ho] at hf
    cases hf
  · rw [ho] at hf
    refine ⟨s, hs, u, List.mem_of_mem_head? ho, ho, ?_⟩
    simpa using hf

theorem establishedKind_isSome {lst : List (Nat × List TimePoint)}
    {s : Nat × List TimePoint} (hs : s ∈ lst) (hne : s.2 ≠ []) :
    ∃ k0, establishedKind lst = some k0 := by
  rcases he : establishedKind lst with _ | k0
  · unfold establishedKind at he
    rw [List.findSome?_eq_none_iff] at he
    have := he s hs
    rcases hh : s.2.head? with _ | u
    · exact absurd (List.head?_eq_none_iff.mp hh) hne
    · rw [hh] at this
      cases this
  · exact ⟨k0, rfl⟩

theorem kindUniform_of_wf {l : DataLayer} (hwf : WF l) {s1 s2 : Nat × List TimePoint}
    {a b : TimePoint} (h1 : s1 ∈ l.series) (ha : a ∈ s1.2) (h2 : s2 ∈ l.series)
    (hb : b ∈ s2.2) : tpKind a = tpKind b :=
  hwf.2.2.2 s1 h1 a ha s2 h2 b hb

/-- Claim C7, confirmed in this explicit-state embedding: a failing operation
returns only an error and no successor state, so the caller's layer — the
scale and every series registry — is exactly what it was before the call;
the substantive content proved here is that the mutating operations fail
exactly on the validation conflicts of §7 (time-kind mismatches), i.e. the
error is decided by a read-only check before any scale mutation or packet
construction is committed. -/
theorem operations_fail_fast (l : DataLayer) (sid : Nat) (data : List TimeValue)
    (v : TimeValue) (hwf : WF l) :
    ((setSeriesData l sid data).isOk = false ↔
      MixedKinds data ∨ ConflictsWithOthers l sid data) ∧
    ((updateSeriesData l sid v).isOk = false ↔ ConflictsWithLayer l v) := by
  constructor
  · rw [← Bool.not_eq_true, setSeriesData_isOk_iff]
    constructor
    · intro hok
      unfold setKindOk at hok
      rw [Bool.and_eq_true] at hok
      by_cases hs : sameKindList data = true
      · right
        have hmatch : ¬ (match data.head?, establishedKind
            (l.series.filter (fun s => s.1 != sid)) with
          | some v, some k0 => tvKind v == k0
          | _, _ => true) = true := fun hc => hok ⟨hs, hc⟩
        rcases hd : data.head? with _ | a
        · rw [hd] at hmatch
          exact absurd rfl hmatch
        · rcases he : establishedKind (l.series.filter (fun s => s.1 != sid)) with _ | k0
          · rw [hd, he] at hmatch
            exact absurd rfl hmatch
          · rw [hd, he] at hmatch
            have hak : tvKind a ≠ k0 := by simpa using hmatch
            rcases establishedKind_some he with ⟨s, hsf, u, hu, _, huk⟩
            refine ⟨a, List.mem_of_mem_head? hd, s, List.mem_of_mem_filter hsf, ?_, u, hu, ?_⟩
            · have := (List.mem_filter.mp hsf).2
              simpa using this
            · rw [huk]
              exact hak
      · left
        cases data with
        | nil => exact absurd rfl hs
        | cons a rest =>
          unfold sameKindList at hs
          rw [List.all_eq_true] at hs
          push_neg at hs
          rcases hs with ⟨w, hw, hwk⟩
          exact ⟨w, List.mem_cons_of_mem a hw, a, List.mem_cons_self a rest,
            by simpa using hwk⟩
    · intro hconf hok
      unfold setKindOk at hok
      rw [Bool.and_eq_true] at hok
      rcases hconf with ⟨x, hx, y, hy, hxy⟩ | ⟨x, hx, s, hs, hsid, u, hu, hxu⟩
      · exact hxy (sameKindList_eq hok.1 x hx y hy)
      · have hsf : s ∈ l.series.filter (fun s => s.1 != sid) :=
          List.mem_filter.mpr ⟨hs, by simpa using hsid⟩
        rcases establishedKind_isSome hsf (fun hc => by rw [hc] at hu; cases hu) with ⟨k0, he⟩
        rcases establishedKind_some he with ⟨s1, hs1f, u1, hu1, _, hu1k⟩
        have hkinds : tpKind u1 = tpKind u :=
          kindUniform_of_wf hwf (List.mem_of_mem_filter hs1f) hu1 hs hu
        cases data with
        | nil => cases hx
        | cons a rest =>
          have hmatch := hok.2
          rw [List.head?_cons, he] at hmatch
          have hak : tvKind a = k0 := by simpa using hmatch
          have hxa : tvKind x = tvKind a :=
            sameKindList_eq hok.1 x hx a (List.mem_cons_self a rest)
          exact hxu (by rw [hxa, hak, ← hu1k, hkinds])
  · rw [← Bool.not_eq_true, updateSeriesData_isOk_iff]
    constructor
    · intro hok
      unfold updKindOk at hok
      rcases he : establishedKind l.series with _ | k0
      · rw [he] at hok
        exact absurd rfl hok
      · rw [he] at hok
        have hvk : tvKind v ≠ k0 := by simpa using hok
        rcases establishedKind_some he with ⟨s, hs, u, hu, _, huk⟩
        exact ⟨s, hs, u, hu, by rw [← huk] at hvk; exact hvk⟩
    · rintro ⟨s, hs, u, hu, hvu⟩ hok
      unfold updKindOk at hok
      rcases establishedKind_isSome hs (fun hc => by rw [hc] at hu; cases hu) with ⟨k0, he⟩
      rcases establishedKind_some he with ⟨s1, hs1, u1, hu1, _, hu1k⟩
      have hkinds : tpKind u1 = tpKind u := kindUniform_of_wf hwf hs1 hu1 hs hu
      rw [he] at hok
      have : tvKind v = k0 := by simpa using hok
      exact hvu (by rw [this, ← hu1k, hkinds])

/-- Claim C7, witness: the fail-fast characterization evaluated on the
business-day layer of the unit tests with a conflicting timestamp update and
a conflicting mixed set call. -/
theorem operations_fail_fast_witness :
    ((setSeriesData bdLayer 2 [.utc 5000]).isOk = false ↔
      MixedKinds [.utc 5000] ∨ ConflictsWithOthers bdLayer 2 [.utc 5000]) ∧
    ((updateSeriesData bdLayer 1 (.utc 5000)).isOk = false ↔
      ConflictsWithLayer bdLayer (.utc 5000)) :=
  operations_fail_fast bdLayer 2 [.utc 5000] (.utc 5000) (by decide)

theorem asc_seriesPoints {l : DataLayer} (hwf : WF l) (sid : Nat) :
    Asc (seriesPoints l sid) := by
  unfold seriesPoints
  rcases hf : l.series.find? (fun s => s.1 == sid) with _ | s
  · simp only [hf]
    exact List.Pairwise.nil
  · simp only [hf]
    exact hwf.2.1 s (List.mem_of_find?_eq_some hf)

theorem seriesPoints_ts_in_scale {l : DataLayer} (hwf : WF l) (sid : Nat) :
    ∀ u ∈ seriesPoints l sid, u.timestamp ∈ l.scale.map TimePoint.timestamp := by
  unfold seriesPoints
  rcases hf : l.series.find? (fun s => s.1 == sid) with _ | s
  · simp only [hf]
    intro u hu
    cases hu
  · simp only [hf]
    exact hwf.2.2.1 s (List.mem_of_find?_eq_some hf)

theorem mem_setEntry {series : List (Nat × List TimePoint)} {sid : Nat}
    {pts : List TimePoint} :
    ∀ s ∈ setEntry series sid pts, s.1 = sid → s.2 = pts := by
  unfold setEntry
  by_cases h : series.any (fun s => s.1 == sid)
  · rw [if_pos h]
    intro s hs hsid
    rcases List.mem_map.mp hs with ⟨x, _, hmap⟩
    by_cases hx : (x.1 == sid) = true
    · rw [if_pos hx] at hmap
      rw [← hmap]
    · rw [if_neg hx] at hmap
      rw [← hmap] at hsid
      exact absurd (by simpa using hsid) hx
  · rw [if_neg h]
    rw [Bool.not_eq_true, List.any_eq_false] at h
    intro s hs hsid
    rcases List.mem_append.mp hs with hs | hs
    · exact absurd (by simpa using hsid) (h s hs)
    · rcases List.mem_cons.mp hs with rfl | hs
      · rfl
      · cases hs

theorem exists_setEntry (series : List (Nat × List TimePoint)) (sid : Nat)
    (pts : List TimePoint) :
    ∃ s ∈ setEntry series sid pts, s.1 = sid := by
  unfold setEntry
  by_cases h : series.any (fun s => s.1 == sid)
  · rw [if_pos h]
    rw [List.any_eq_true] at h
    rcases h with ⟨x, hx, hxid⟩
    refine ⟨(sid, pts), List.mem_map.mpr ⟨x, hx, ?_⟩, rfl⟩
    rw [if_pos hxid]
  · rw [if_neg h]
    exact ⟨(sid, pts), List.mem_append.mpr (Or.inr (List.mem_cons_self _ _)), rfl⟩

theorem findPacket_shiftedPackets {series2 : List (Nat × List TimePoint)}
    {scale2 : List TimePoint} {p : Nat} {sid : Nat} {pts2 : List TimePoint}
    (hall : ∀ s ∈ series2, s.1 = sid → s.2 = pts2)
    (hex : ∃ s ∈ series2, s.1 = sid)
    (hne : shiftedPacket scale2 p pts2 ≠ none) :
    findPacket (shiftedPackets series2 scale2 p) sid = shiftedPacket scale2 p pts2 := by
  induction series2 with
  | nil =>
    rcases hex with ⟨s, hs, _⟩
    cases hs
  | cons s ss ih =>
    have hex2 : s.1 ≠ sid → ∃ x ∈ ss, x.1 = sid := by
      intro hne2
      rcases hex with ⟨x, hx, hxid⟩
      rcases List.mem_cons.mp hx with rfl | hx
      · exact absurd hxid hne2
      · exact ⟨x, hx, hxid⟩
    unfold shiftedPackets
    rw [List.filterMap_cons]
    by_cases hsid : s.1 = sid
    · have hpts : s.2 = pts2 := hall s (List.mem_cons_self _ _) hsid
      rcases hp : shiftedPacket scale2 p pts2 with _ | pk
      · exact absurd hp hne
      · rw [hpts, hp]
        simp only [Option.map_some']
        unfold findPacket
        rw [List.find?_cons_of_pos _ (by simpa using hsid)]
        simp
    · rcases hp : shiftedPacket scale2 p s.2 with _ | pk
      · simp only [Option.map_none']
        exact ih (fun x hx => hall x (List.mem_cons_of_mem s hx)) (hex2 hsid)
      · simp only [Option.map_some']
        unfold findPacket
        rw [List.find?_cons_of_neg _ (by simpa using hsid)]
        have hrec := ih (fun x hx => hall x (List.mem_cons_of_mem s hx)) (hex2 hsid)
        unfold findPacket at hrec
        unfold shiftedPackets at hrec
        exact hrec

theorem scaleIndex_le_scaleIndex {scale : List TimePoint} (hasc : Asc scale)
    {a b : Int} (hab : a ≤ b) : scaleIndex scale a ≤ scaleIndex scale b := by
  rw [scaleIndex_countP hasc, scaleIndex_countP hasc]
  refine List.countP_mono_left ?_
  intro u _ hu
  simp only [decide_eq_true_eq] at hu ⊢
  omega

theorem scaleIndex_lt_of_mem {scale : List TimePoint} (hasc : Asc scale)
    {a b : Int} (hab : a < b) (hmem : a ∈ scale.map TimePoint.timestamp) :
    scaleIndex scale a < scaleIndex scale b := by
  rw [scaleIndex_countP hasc, scaleIndex_countP hasc]
  rcases List.mem_map.mp hmem with ⟨q, hq, hqts⟩
  refine countP_mono_strict ?_ hq ?_ ?_
  · intro u _ hu
    simp only [decide_eq_true_eq] at hu ⊢
    omega
  · simp only [decide_eq_true_eq]
    omega
  · simp only [decide_eq_false_iff_not, decide_eq_true_eq, not_lt]
    omega

theorem insert_newIdx_self {S : List TimePoint} {t : TimePoint} (hasc : Asc S)
    (hnot : ¬ ∃ q ∈ S, q.timestamp = t.timestamp) :
    scaleIndex (insertScale S t) t.timestamp = scaleIndex S t.timestamp := by
  unfold insertScale insertTail
  exact scaleIndex_insert_self hasc hnot

theorem insert_newIdx_other {S : List TimePoint} {t : TimePoint} (hasc : Asc S)
    (hnot : ¬ ∃ q ∈ S, q.timestamp = t.timestamp) (b : Int) :
    scaleIndex (insertScale S t) b = scaleIndex S b + (if t.timestamp < b then 1 else 0) := by
  unfold insertScale insertTail
  exact scaleIndex_insert_other hasc hnot b

theorem not_mem_seriesPoints_ts {l : DataLayer} (hwf : WF l) (sid : Nat) {t : TimePoint}
    (hnot : ¬ ∃ q ∈ l.scale, q.timestamp = t.timestamp) :
    ¬ ∃ q ∈ seriesPoints l sid, q.timestamp = t.timestamp := by
  rintro ⟨q, hq, hqts⟩
  have := seriesPoints_ts_in_scale hwf sid q hq
  rcases List.mem_map.mp this with ⟨w, hw, hwts⟩
  exact hnot ⟨w, hw, by rw [hwts, hqts]⟩

theorem insert_bars_eq {l : DataLayer} (sid : Nat) (t : TimePoint) (hwf : WF l)
    (hnot : ¬ ∃ q ∈ l.scale, q.timestamp = t.timestamp) :
    (seriesBars (insertScale l.scale t) (insertPoint t (seriesPoints l sid))).filter
        (fun b => decide (scaleIndex l.scale t.timestamp ≤ b.index)) =
      ⟨scaleIndex l.scale t.timestamp, t⟩ ::
        ((seriesPoints l sid).dropWhile (fun q => decide (q.timestamp < t.timestamp))).map
          (fun u => ⟨scaleIndex (insertScale l.scale t) u.timestamp, u⟩) := by
  have hascOld : Asc (seriesPoints l sid) := asc_seriesPoints hwf sid
  have hnotOld := not_mem_seriesPoints_ts hwf sid hnot
  rw [insertPoint_eq_append hascOld hnotOld]
  unfold seriesBars
  rw [List.map_append, List.map_cons, List.filter_append, List.filter_cons]
  have hhead : scaleIndex (insertScale l.scale t) t.timestamp =
      scaleIndex l.scale t.timestamp := insert_newIdx_self hwf.1 hnot
  have htake : (((seriesPoints l sid).takeWhile
        (fun q => decide (q.timestamp < t.timestamp))).map
      (fun u => (⟨scaleIndex (insertScale l.scale t) u.timestamp, u⟩ : Bar))).filter
        (fun b => decide (scaleIndex l.scale t.timestamp ≤ b.index)) = [] := by
    rw [List.filter_eq_nil_iff]
    intro b hb
    rcases List.mem_map.mp hb with ⟨u, hu, rfl⟩
    have hult : u.timestamp < t.timestamp := mem_takeWhile_lt hu
    have humem : u.timestamp ∈ l.scale.map TimePoint.timestamp :=
      seriesPoints_ts_in_scale hwf sid u ((List.takeWhile_sublist _).mem hu)
    have hidx : scaleIndex (insertScale l.scale t) u.timestamp =
        scaleIndex l.scale u.timestamp := by
      rw [insert_newIdx_other hwf.1 hnot u.timestamp, if_neg (by omega)]
      omega
    have hlt : scaleIndex l.scale u.timestamp < scaleIndex l.scale t.timestamp :=
      scaleIndex_lt_of_mem hwf.1 hult humem
    simp only [hidx, decide_eq_true_eq, not_le]
    omega
  have hdrop : ∀ b ∈ (((seriesPoints l sid).dropWhile
        (fun q => decide (q.timestamp < t.timestamp))).map
      (fun u => (⟨scaleIndex (insertScale l.scale t) u.timestamp, u⟩ : Bar))),
      (decide (scaleIndex l.scale t.timestamp ≤ b.index)) = true := by
    intro b hb
    rcases List.mem_map.mp hb with ⟨u, hu, rfl⟩
    have hnlt : ¬ u.timestamp < t.timestamp := mem_dropWhile_not_lt hascOld u hu
    have hune : u.timestamp ≠ t.timestamp := by
      intro hc
      exact hnotOld ⟨u, (List.dropWhile_sublist _).mem hu, hc⟩
    have hgt : t.timestamp < u.timestamp := by omega
    have humem : u.timestamp ∈ l.scale.map TimePoint.timestamp :=
      seriesPoints_ts_in_scale hwf sid u ((List.dropWhile_sublist _).mem hu)
    have hidx : scaleIndex (insertScale l.scale t) u.timestamp =
        scaleIndex l.scale u.timestamp + 1 := by
      rw [insert_newIdx_other hwf.1 hnot u.timestamp, if_pos hgt]
    have hle : scaleIndex l.scale t.timestamp ≤ scaleIndex l.scale u.timestamp :=
      scaleIndex_le_scaleIndex hwf.1 (le_of_lt hgt)
    simp only [hidx, decide_eq_true_eq]
    omega
  rw [htake, hhead]
  rw [if_pos (by simp)]
  rw [List.filter_eq_self.mpr hdrop]
  simp

theorem shiftedPacket_insert_eq {l : DataLayer} (sid : Nat) (t : TimePoint) (hwf : WF l)
    (hnot : ¬ ∃ q ∈ l.scale, q.timestamp = t.timestamp) :
    shiftedPacket (insertScale l.scale t) (scaleIndex l.scale t.timestamp)
        (insertPoint t (seriesPoints l sid)) =
      some ⟨⟨scaleIndex l.scale t.timestamp, t⟩ ::
        ((seriesPoints l sid).dropWhile (fun q => decide (q.timestamp < t.timestamp))).map
          (fun u => ⟨scaleIndex (insertScale l.scale t) u.timestamp, u⟩)⟩ := by
  unfold shiftedPacket
  rw [insert_bars_eq sid t hwf hnot]
  simp

theorem okUpdate_ok (x : TimeScaleUpdate × DataLayer) :
    okUpdate (.ok x) = x.1 := rfl

theorem okLayer_ok (x : TimeScaleUpdate × DataLayer) :
    okLayer (.ok x) = x.2 := rfl

/-- Claim C10, confirmed: when `updateSeriesData` inserts a new timestamp
into the shared scale, the acting series' own packet is exactly its new bar
followed by those of its existing bars whose scale index shifted, in
ascending index order (bars whose index did not change are omitted). -/
theorem updateSeriesData_acting_packet (l : DataLayer) (sid : Nat) (v : TimeValue)
    (hwf : WF l) (hk : updKindOk l v = true)
    (hnot : ¬ ∃ q ∈ l.scale, q.timestamp = (convertTime v).timestamp) :
    (updateSeriesData l sid v).isOk = true ∧
    findPacket (okUpdate (updateSeriesData l sid v)).seriesUpdates sid =
      some ⟨⟨scaleIndex (okLayer (updateSeriesData l sid v)).scale
            (convertTime v).timestamp, convertTime v⟩ ::
        ((seriesPoints l sid).filter (fun u =>
            scaleIndex (okLayer (updateSeriesData l sid v)).scale u.timestamp !=
              scaleIndex l.scale u.timestamp)).map
          (fun u => ⟨scaleIndex (okLayer (updateSeriesData l sid v)).scale u.timestamp, u⟩)⟩ ∧
    List.Pairwise (fun a b : Bar => a.index < b.index)
      (⟨scaleIndex (okLayer (updateSeriesData l sid v)).scale
            (convertTime v).timestamp, convertTime v⟩ ::
        ((seriesPoints l sid).filter (fun u =>
            scaleIndex (okLayer (updateSeriesData l sid v)).scale u.timestamp !=
              scaleIndex l.scale u.timestamp)).map
          (fun u => ⟨scaleIndex (okLayer (updateSeriesData l sid v)).scale u.timestamp, u⟩)) := by
  have hascOld : Asc (seriesPoints l sid) := asc_seriesPoints hwf sid
  have hnotOld := not_mem_seriesPoints_ts hwf sid hnot
  have hfilter : (seriesPoints l sid).filter (fun u =>
        scaleIndex (insertScale l.scale (convertTime v)) u.timestamp !=
          scaleIndex l.scale u.timestamp) =
      (seriesPoints l sid).dropWhile
        (fun q => decide (q.timestamp < (convertTime v).timestamp)) := by
    rw [dropWhile_eq_filter_of_asc hascOld hnotOld]
    refine List.filter_congr ?_
    intro u _
    rw [insert_newIdx_other hwf.1 hnot u.timestamp]
    by_cases hc : (convertTime v).timestamp < u.timestamp
    · simp [hc, bne_iff_ne]
    · simp [hc, bne_iff_ne]
  have hhead : scaleIndex (insertScale l.scale (convertTime v)) (convertTime v).timestamp =
      scaleIndex l.scale (convertTime v).timestamp := insert_newIdx_self hwf.1 hnot
  have hgt_of_mem : ∀ u ∈ (seriesPoints l sid).dropWhile
      (fun q => decide (q.timestamp < (convertTime v).timestamp)),
      (convertTime v).timestamp < u.timestamp := by
    intro u hu
    have hnlt := mem_dropWhile_not_lt hascOld u hu
    have hune : u.timestamp ≠ (convertTime v).timestamp := by
      intro hc
      exact hnotOld ⟨u, (List.dropWhile_sublist _).mem hu, hc⟩
    omega
  have h2 : findPacket (shiftedPackets
        (setEntry l.series sid (insertPoint (convertTime v) (seriesPoints l sid)))
        (insertScale l.scale (convertTime v))
        (scaleIndex l.scale (convertTime v).timestamp)) sid =
      some ⟨⟨scaleIndex (insertScale l.scale (convertTime v)) (convertTime v).timestamp,
          convertTime v⟩ ::
        ((seriesPoints l sid).filter (fun u =>
            scaleIndex (insertScale l.scale (convertTime v)) u.timestamp !=
              scaleIndex l.scale u.timestamp)).map
          (fun u => ⟨scaleIndex (insertScale l.scale (convertTime v)) u.timestamp, u⟩)⟩ := by
    rw [hfilter, hhead]
    rw [findPacket_shiftedPackets mem_setEntry (exists_setEntry _ _ _)
      (by rw [shiftedPacket_insert_eq sid (convertTime v) hwf hnot]; simp)]
    exact shiftedPacket_insert_eq sid (convertTime v) hwf hnot
  have h3 : List.Pairwise (fun a b : Bar => a.index < b.index)
      ((⟨scaleIndex (insertScale l.scale (convertTime v)) (convertTime v).timestamp,
          convertTime v⟩ : Bar) ::
        ((seriesPoints l sid).filter (fun u =>
            scaleIndex (insertScale l.scale (convertTime v)) u.timestamp !=
              scaleIndex l.scale u.timestamp)).map
          (fun u => ⟨scaleIndex (insertScale l.scale (convertTime v)) u.timestamp, u⟩)) := by
    rw [hfilter, hhead, List.pairwise_cons]
    constructor
    · intro b hb
      rcases List.mem_map.mp hb with ⟨u, hu, rfl⟩
      have hgt := hgt_of_mem u hu
      show scaleIndex l.scale (convertTime v).timestamp <
        scaleIndex (insertScale l.scale (convertTime v)) u.timestamp
      rw [insert_newIdx_other hwf.1 hnot u.timestamp, if_pos hgt]
      have := scaleIndex_le_scaleIndex hwf.1 (le_of_lt hgt)
      omega
    · rw [List.pairwise_map]
      refine List.Pairwise.imp_of_mem ?_
        (List.Pairwise.sublist (List.dropWhile_sublist _) hascOld)
      intro a b ha hb hab
      have hgta := hgt_of_mem a ha
      have hgtb := hgt_of_mem b hb
      have haMem : a.timestamp ∈ l.scale.map TimePoint.timestamp :=
        seriesPoints_ts_in_scale hwf sid a ((List.dropWhile_sublist _).mem ha)
      show scaleIndex (insertScale l.scale (convertTime v)) a.timestamp <
        scaleIndex (insertScale l.scale (convertTime v)) b.timestamp
      rw [insert_newIdx_other hwf.1 hnot a.timestamp,
        insert_newIdx_other hwf.1 hnot b.timestamp, if_pos hgta, if_pos hgtb]
      have := scaleIndex_lt_of_mem hwf.1 hab haMem
      omega
  rw [updateSeriesData_insert_eq l sid v hk hnot]
  exact ⟨rfl, h2, h3⟩

/-- Claim C10, witness: the theorem evaluated on the `add new point in the
middle` unit-test layer, inserting timestamp 4000 as the new last point of
the second series. -/
theorem updateSeriesData_acting_packet_witness :
    (updateSeriesData midLayer 2 (.utc 4000)).isOk = true ∧
    findPacket (okUpdate (updateSeriesData midLayer 2 (.utc 4000))).seriesUpdates 2 =
      some ⟨⟨scaleIndex (okLayer (updateSeriesData midLayer 2 (.utc 4000))).scale
            (convertTime (.utc 4000)).timestamp, convertTime (.utc 4000)⟩ ::
        ((seriesPoints midLayer 2).filter (fun u =>
            scaleIndex (okLayer (updateSeriesData midLayer 2 (.utc 4000))).scale u.timestamp !=
              scaleIndex midLayer.scale u.timestamp)).map
          (fun u => ⟨scaleIndex (okLayer (updateSeriesData midLayer 2 (.utc 4000))).scale
            u.timestamp, u⟩)⟩ ∧
    List.Pairwise (fun a b : Bar => a.index < b.index)
      (⟨scaleIndex (okLayer (updateSeriesData midLayer 2 (.utc 4000))).scale
            (convertTime (.utc 4000)).timestamp, convertTime (.utc 4000)⟩ ::
        ((seriesPoints midLayer 2).filter (fun u =>
            scaleIndex (okLayer (updateSeriesData midLayer 2 (.utc 4000))).scale u.timestamp !=
              scaleIndex midLayer.scale u.timestamp)).map
          (fun u => ⟨scaleIndex (okLayer (updateSeriesData midLayer 2 (.utc 4000))).scale
            u.timestamp, u⟩)) :=
  updateSeriesData_acting_packet midLayer 2 (.utc 4000) (by decide) (by decide) (by decide)

end DataLayerModel
